import Mathlib

/-!
Shallow embedding of the pngme chunk codec (src/chunk_type.rs, src/chunk.rs)
and of the spec-described Png container, together with proofs of the spec's
claims about them.  Machine integers (u8, u32) are modelled as `Nat` with
explicit truncation `% 2^32` where the source casts to `u32`; byte-ness of
`u8` values appears as `< 256` hypotheses.  Fallible operations return
`Except`.
-/

deriving instance DecidableEq for Except

namespace Pngme

/-- Models `u8::is_ascii_alphabetic`: `A`-`Z` (65..90) or `a`-`z` (97..122). -/
def isAsciiAlphabetic (b : Nat) : Bool :=
  (65 ≤ b && b ≤ 90) || (97 ≤ b && b ≤ 122)

/-- Models `ChunkTypeParseError` from src/chunk_type.rs. -/
inductive ChunkTypeParseError where
  | InvalidLength (len : Nat)
  | InvalidByte (b : Nat)
  deriving DecidableEq, Repr

/-- Models `ChunkType` from src/chunk_type.rs: a wrapper around the four
type-code bytes (`[u8; 4]`, modelled as a list of naturals). -/
structure ChunkType where
  bytes : List Nat
  deriving DecidableEq, Repr

/-- Models `impl TryFrom<[u8; 4]> for ChunkType`: the first byte (scanning
left to right) that is not ASCII alphabetic yields `InvalidByte`; if none,
the value is accepted. -/
def ChunkType.tryFrom (value : List Nat) : Except ChunkTypeParseError ChunkType :=
  match value.find? (fun b => !(isAsciiAlphabetic b)) with
  | some b => .error (.InvalidByte b)
  | none => .ok ⟨value⟩

/-- Models `impl FromStr for ChunkType`: `s.as_bytes().try_into()` succeeds
exactly when the byte length is 4 (otherwise `InvalidLength(s.len())`), then
delegates to `ChunkType.tryFrom`.  The string is modelled as its byte list. -/
def ChunkType.fromStr (s : List Nat) : Except ChunkTypeParseError ChunkType :=
  if s.length = 4 then ChunkType.tryFrom s
  else .error (.InvalidLength s.length)

/-- Models the private helper `nth_bit(num, n) = num & (1 << n) == 0`
from src/chunk_type.rs (true when the bit is CLEAR). -/
def nth_bit (num n : Nat) : Bool :=
  num &&& (1 <<< n) == 0

/-- Models `ChunkType::is_critical`: `nth_bit(self.0[0], 5)`. -/
def ChunkType.is_critical (ct : ChunkType) : Bool :=
  nth_bit (ct.bytes.getD 0 0) 5

/-- Models `ChunkType::is_public`: `nth_bit(self.0[1], 5)`. -/
def ChunkType.is_public (ct : ChunkType) : Bool :=
  nth_bit (ct.bytes.getD 1 0) 5

/-- Models `ChunkType::is_reserved_bit_valid`: `nth_bit(self.0[2], 5)`. -/
def ChunkType.is_reserved_bit_valid (ct : ChunkType) : Bool :=
  nth_bit (ct.bytes.getD 2 0) 5

/-- Models `ChunkType::is_safe_to_copy`: `!nth_bit(self.0[3], 5)`. -/
def ChunkType.is_safe_to_copy (ct : ChunkType) : Bool :=
  !(nth_bit (ct.bytes.getD 3 0) 5)

/-- Models `ChunkType::is_valid`: delegates to `is_reserved_bit_valid`. -/
def ChunkType.is_valid (ct : ChunkType) : Bool :=
  ct.is_reserved_bit_valid

/-- One bit step of the reflected CRC-32 update: shift right, conditionally
xor with the reflected ISO-HDLC polynomial 0xEDB88320 = 3988292384. -/
def crc32Bit (crc : Nat) : Nat :=
  if crc % 2 = 1 then (crc / 2) ^^^ 3988292384 else crc / 2

/-- Iterates `crc32Bit` the given number of times. -/
def crc32Bits : Nat → Nat → Nat
  | 0, crc => crc
  | n + 1, crc => crc32Bits n (crc32Bit crc)

/-- Absorbs one input byte into the running CRC (reflected algorithm). -/
def crc32Byte (crc b : Nat) : Nat :=
  crc32Bits 8 (crc ^^^ b)

/-- Models `Crc::<u32>::new(&CRC_32_ISO_HDLC).checksum(data)`: the standard
CRC-32 (ISO-HDLC): init 0xFFFFFFFF, reflected in/out, xorout 0xFFFFFFFF. -/
def crc32 (data : List Nat) : Nat :=
  (data.foldl crc32Byte 4294967295) ^^^ 4294967295

/-- Models `u32::to_be_bytes`: the four big-endian bytes of a `u32`. -/
def u32BE (n : Nat) : List Nat :=
  [n / 16777216 % 256, n / 65536 % 256, n / 256 % 256, n % 256]

/-- Models `u32::from_be_bytes` on a 4-byte big-endian slice. -/
def u32FromBE (l : List Nat) : Nat :=
  l.foldl (fun acc b => acc * 256 + b) 0

/-- Models `ChunkParseError` from src/chunk.rs. -/
inductive ChunkParseError where
  | Incomplete
  | InvalidLengthField (expected found : Nat)
  | InvalidChunkType (e : ChunkTypeParseError)
  | InvalidChecksum
  deriving DecidableEq, Repr

/-- Models `Chunk` from src/chunk.rs. -/
structure Chunk where
  length : Nat
  chunk_type : ChunkType
  data : List Nat
  crc : Nat
  deriving DecidableEq, Repr

/-- Models `Chunk::new`: `length = data.len() as u32` (truncation to 32
bits), `crc` = CRC-32 of the type bytes followed by the data. -/
def Chunk.new (chunk_type : ChunkType) (data : List Nat) : Chunk :=
  { length := data.length % 4294967296
    chunk_type := chunk_type
    data := data
    crc := crc32 (chunk_type.bytes ++ data) }

/-- Models `Chunk::as_bytes`: big-endian length, type bytes, data,
big-endian crc. -/
def Chunk.as_bytes (c : Chunk) : List Nat :=
  u32BE c.length ++ c.chunk_type.bytes ++ c.data ++ u32BE c.crc

/-- Wrapping u32 subtraction, modelling release-mode `a - b` on `u32`
(used for `value.len() as u32 - 12`). Assumes `a < 2^32` and `b ≤ 2^32`. -/
def wrapSub32 (a b : Nat) : Nat :=
  (a + 4294967296 - b) % 4294967296

/-- Models `impl TryFrom<&[u8]> for Chunk` from src/chunk.rs: minimum-size
check, big-endian length field check against `value.len() as u32 - 12`,
chunk-type parse of bytes 4..8, payload = bytes 8..len-4, declared CRC =
trailing 4 bytes, recomputation via `Chunk::new` and comparison. -/
def Chunk.tryFrom (value : List Nat) : Except ChunkParseError Chunk :=
  if value.length < 12 then .error .Incomplete
  else if u32FromBE (value.take 4) ≠ wrapSub32 (value.length % 4294967296) 12 then
    .error (.InvalidLengthField (wrapSub32 (value.length % 4294967296) 12)
      (u32FromBE (value.take 4)))
  else
    match ChunkType.tryFrom ((value.drop 4).take 4) with
    | .error e => .error (.InvalidChunkType e)
    | .ok ct =>
      if u32FromBE (value.drop (value.length - 4)) ≠
          (Chunk.new ct ((value.drop 8).take (value.length - 12))).crc then
        .error .InvalidChecksum
      else .ok (Chunk.new ct ((value.drop 8).take (value.length - 12)))

/-- A `ChunkType` as actually constructible in the source: exactly four
bytes, all ASCII alphabetic.  In Rust the field is private, so every
`ChunkType` value passes through the validating `try_from`. -/
def ChunkType.WF (ct : ChunkType) : Prop :=
  ct.bytes.length = 4 ∧ ∀ b ∈ ct.bytes, isAsciiAlphabetic b = true

instance (ct : ChunkType) : Decidable ct.WF := by
  unfold ChunkType.WF; infer_instance

/-- A `Chunk` as actually constructible in the source: a well-formed type,
byte-valued data (`Vec<u8>`), payload length within the 32-bit length
field's range, and the `length`/`crc` fields computed as `Chunk::new`
computes them. -/
def Chunk.WF (c : Chunk) : Prop :=
  c.chunk_type.WF ∧ (∀ b ∈ c.data, b < 256) ∧ c.data.length < 4294967296 ∧
  c.length = c.data.length ∧ c.crc = crc32 (c.chunk_type.bytes ++ c.data)

instance (c : Chunk) : Decidable c.WF := by
  unfold Chunk.WF; infer_instance

/-- Modelled from the spec: the container's fixed 8-byte signature (src/png.rs
is not present in the reviewed sources; spec §4.3 and §6 describe a fixed,
format-defining 8-byte magic validated at the head of the byte stream — the
PNG signature). -/
def pngSignature : List Nat := [137, 80, 78, 71, 13, 10, 26, 10]

/-- Modelled from the spec: container parse errors — a distinct
"not this format" error for a missing or truncated signature, and the
propagated first chunk parse failure. -/
inductive PngParseError where
  | InvalidSignature
  | ChunkError (e : ChunkParseError)
  deriving DecidableEq, Repr

/-- Modelled from the spec: the container holds an ordered sequence of
chunks (spec §3, §4.3). -/
structure Png where
  chunks : List Chunk
  deriving DecidableEq, Repr

/-- Modelled from the spec: the error reported when removal finds no chunk
of the requested type. -/
inductive PngRemoveError where
  | ChunkNotFound
  deriving DecidableEq, Repr

/-- Modelled from the spec: repeatedly parse chunks from the remaining
bytes until the input is exhausted, propagating the first chunk parse
failure (spec §4.3).  Each chunk occupies `12 + n` bytes where `n` is its
declared length, so the loop hands `Chunk.tryFrom` exactly that slice and
continues on the rest.  Structured as fuel-based recursion; the fuel is
irrelevant whenever it is at least the byte count, since every iteration
consumes at least 12 bytes. -/
def parseChunksAux : Nat → List Nat → Except ChunkParseError (List Chunk)
  | _, [] => .ok []
  | 0, _ :: _ => .error .Incomplete
  | fuel + 1, b :: bs =>
    match Chunk.tryFrom ((b :: bs).take (12 + u32FromBE ((b :: bs).take 4))) with
    | .error e => .error e
    | .ok c =>
      match parseChunksAux fuel ((b :: bs).drop (12 + u32FromBE ((b :: bs).take 4))) with
      | .error e => .error e
      | .ok cs => .ok (c :: cs)

/-- Modelled from the spec: parse a whole chunk stream. -/
def parseChunks (bytes : List Nat) : Except ChunkParseError (List Chunk) :=
  parseChunksAux bytes.length bytes

/-- Modelled from the spec: `Png::try_from` validates the fixed 8-byte
signature first, failing with the "not this format" error if it is absent
or truncated, then parses the chunk sequence from the remaining bytes. -/
def Png.tryFrom (bytes : List Nat) : Except PngParseError Png :=
  if bytes.take 8 = pngSignature then
    match parseChunks (bytes.drop 8) with
    | .error e => .error (.ChunkError e)
    | .ok cs => .ok ⟨cs⟩
  else .error .InvalidSignature

/-- Serialization of a chunk sequence: each chunk's bytes in stored order. -/
def chunksBytes : List Chunk → List Nat
  | [] => []
  | c :: cs => c.as_bytes ++ chunksBytes cs

/-- Modelled from the spec: `Png::as_bytes` is the signature followed by
each chunk's bytes in stored order. -/
def Png.as_bytes (p : Png) : List Nat :=
  pngSignature ++ chunksBytes p.chunks

/-- Modelled from the spec: append inserts at the end of the sequence. -/
def Png.append_chunk (p : Png) (c : Chunk) : Png :=
  ⟨p.chunks ++ [c]⟩

/-- Modelled from the spec: first chunk (in stored order) whose type equals
the argument. -/
def Png.chunk_by_type (p : Png) (ct : ChunkType) : Option Chunk :=
  p.chunks.find? (fun c => c.chunk_type == ct)

/-- Modelled from the spec: remove the first matching chunk (same tie-break
as lookup) and return it; report an error if no chunk of that type exists. -/
def Png.remove_chunk (p : Png) (ct : ChunkType) : Except PngRemoveError (Chunk × Png) :=
  match p.chunks.find? (fun c => c.chunk_type == ct) with
  | some c => .ok (c, ⟨p.chunks.eraseP (fun c => c.chunk_type == ct)⟩)
  | none => .error .ChunkNotFound

/-- A container mutation as performed by the command layer
(src/commands.rs): appending a freshly constructed chunk, or removing the
first chunk of a given type. -/
inductive PngOp where
  | append (ct : ChunkType) (d : List Nat)
  | remove (ct : ChunkType)

/-- Applies one mutation; a failed removal leaves the container unchanged. -/
def Png.applyOp (p : Png) : PngOp → Png
  | .append ct d => p.append_chunk (Chunk.new ct d)
  | .remove ct =>
    match p.remove_chunk ct with
    | .ok (_, p2) => p2
    | .error _ => p

/-- Applies a sequence of mutations in order. -/
def Png.applyOps (p : Png) (ops : List PngOp) : Png :=
  ops.foldl Png.applyOp p

/-- Every chunk held by the container is well formed. -/
def Png.WF (p : Png) : Prop :=
  ∀ c ∈ p.chunks, c.WF

/-- A mutation is well formed when any appended chunk is built from a
constructible type and byte-valued data within the length field's range. -/
def PngOp.WF : PngOp → Prop
  | .append ct d => ct.WF ∧ (∀ b ∈ d, b < 256) ∧ d.length < 4294967296
  | .remove _ => True

instance : ∀ op : PngOp, Decidable op.WF := fun op => by
  cases op <;> (unfold PngOp.WF; infer_instance)

/-- The bytes of the payload string used throughout the repository's tests:
"This is where your secret message will be!" (42 bytes). -/
def secretMessageBytes : List Nat :=
  [84, 104, 105, 115, 32, 105, 115, 32, 119, 104, 101, 114, 101, 32, 121, 111,
   117, 114, 32, 115, 101, 99, 114, 101, 116, 32, 109, 101, 115, 115, 97, 103,
   101, 32, 119, 105, 108, 108, 32, 98, 101, 33]

/-! ## Helper lemmas -/

theorem u32BE_length (n : Nat) : (u32BE n).length = 4 := rfl

theorem u32BE_lt (n : Nat) : ∀ b ∈ u32BE n, b < 256 := by
  simp only [u32BE, List.mem_cons, List.not_mem_nil, or_false]
  intro b hb
  rcases hb with h | h | h | h <;> omega

theorem u32FromBE_u32BE (n : Nat) (h : n < 4294967296) : u32FromBE (u32BE n) = n := by
  simp only [u32FromBE, u32BE, List.foldl_cons, List.foldl_nil]
  omega

theorem u32BE_u32FromBE (a b c d : Nat) (ha : a < 256) (hb : b < 256) (hc : c < 256)
    (hd : d < 256) : u32BE (u32FromBE [a, b, c, d]) = [a, b, c, d] := by
  simp only [u32FromBE, u32BE, List.foldl_cons, List.foldl_nil, List.cons.injEq, and_true]
  refine ⟨?_, ?_, ?_, ?_⟩ <;> omega

theorem exists_four {l : List Nat} (h : l.length = 4) : ∃ a b c d, l = [a, b, c, d] := by
  cases l with
  | nil => simp at h
  | cons a l1 =>
    cases l1 with
    | nil => simp at h
    | cons b l2 =>
      cases l2 with
      | nil => simp at h
      | cons c l3 =>
        cases l3 with
        | nil => simp at h
        | cons d l4 =>
          cases l4 with
          | nil => exact ⟨a, b, c, d, rfl⟩
          | cons e l5 => simp at h

theorem u32BE_u32FromBE_of_len {l : List Nat} (hlen : l.length = 4)
    (h : ∀ x ∈ l, x < 256) : u32BE (u32FromBE l) = l := by
  obtain ⟨a, b, c, d, rfl⟩ := exists_four hlen
  exact u32BE_u32FromBE a b c d (h a (by simp)) (h b (by simp)) (h c (by simp)) (h d (by simp))

theorem foldl_byte_bound (l : List Nat) (acc : Nat) (h : ∀ b ∈ l, b < 256) :
    l.foldl (fun acc b => acc * 256 + b) acc < (acc + 1) * 256 ^ l.length := by
  induction l generalizing acc with
  | nil => simp
  | cons b t ih =>
    simp only [List.foldl_cons, List.length_cons]
    have hb : b < 256 := h b (List.mem_cons_self b t)
    have ht : ∀ x ∈ t, x < 256 := fun x hx => h x (List.mem_cons_of_mem _ hx)
    calc t.foldl (fun acc b => acc * 256 + b) (acc * 256 + b)
        < (acc * 256 + b + 1) * 256 ^ t.length := ih _ ht
      _ ≤ ((acc + 1) * 256) * 256 ^ t.length := by
          exact Nat.mul_le_mul_right _ (by omega)
      _ = (acc + 1) * 256 ^ (t.length + 1) := by ring

theorem u32FromBE_lt {l : List Nat} (hlen : l.length ≤ 4) (h : ∀ b ∈ l, b < 256) :
    u32FromBE l < 4294967296 := by
  have hb := foldl_byte_bound l 0 h
  simp only [Nat.zero_add, Nat.one_mul] at hb
  calc u32FromBE l < 256 ^ l.length := hb
    _ ≤ 256 ^ 4 := Nat.pow_le_pow_right (by norm_num) hlen
    _ = 4294967296 := by norm_num

theorem crc32Bit_lt {crc : Nat} (h : crc < 4294967296) : crc32Bit crc < 4294967296 := by
  have h32 : (4294967296 : Nat) = 2 ^ 32 := by norm_num
  unfold crc32Bit
  split
  · rw [h32]
    exact Nat.xor_lt_two_pow (by omega) (by norm_num)
  · omega

theorem crc32Bits_lt (n : Nat) {crc : Nat} (h : crc < 4294967296) :
    crc32Bits n crc < 4294967296 := by
  induction n generalizing crc with
  | zero => simpa [crc32Bits] using h
  | succ k ih => exact ih (crc32Bit_lt h)

theorem crc32Byte_lt {crc b : Nat} (hc : crc < 4294967296) (hb : b < 256) :
    crc32Byte crc b < 4294967296 := by
  have h32 : (4294967296 : Nat) = 2 ^ 32 := by norm_num
  have hx : crc ^^^ b < 4294967296 := by
    rw [h32]
    exact Nat.xor_lt_two_pow (by omega) (by omega)
  exact crc32Bits_lt 8 hx

theorem crc32_lt (data : List Nat) (h : ∀ b ∈ data, b < 256) : crc32 data < 4294967296 := by
  have key : ∀ (l : List Nat) (acc : Nat), (∀ b ∈ l, b < 256) → acc < 4294967296 →
      l.foldl crc32Byte acc < 4294967296 := by
    intro l
    induction l with
    | nil => intro acc _ ha; simpa using ha
    | cons b t ih =>
      intro acc hl ha
      simp only [List.foldl_cons]
      exact ih _ (fun x hx => hl x (List.mem_cons_of_mem _ hx))
        (crc32Byte_lt ha (hl b (List.mem_cons_self b t)))
  have h32 : (4294967296 : Nat) = 2 ^ 32 := by norm_num
  unfold crc32
  rw [h32]
  exact Nat.xor_lt_two_pow (by
    rw [← h32]; exact key data 4294967295 h (by norm_num)) (by norm_num)

theorem alpha_lt_256 {b : Nat} (h : isAsciiAlphabetic b = true) : b < 256 := by
  simp only [isAsciiAlphabetic, Bool.or_eq_true, Bool.and_eq_true, decide_eq_true_eq] at h
  omega

theorem wrapSub32_of_ge {L : Nat} (h12 : 12 ≤ L) :
    wrapSub32 (L % 4294967296) 12 = (L - 12) % 4294967296 := by
  unfold wrapSub32
  omega

theorem wrapSub32_len (d : Nat) :
    wrapSub32 ((12 + d) % 4294967296) 12 = d % 4294967296 := by
  unfold wrapSub32
  omega

theorem ChunkType.tryFrom_of_WF {ct : ChunkType} (h : ct.WF) :
    ChunkType.tryFrom ct.bytes = .ok ct := by
  have hf : ct.bytes.find? (fun b => !(isAsciiAlphabetic b)) = none := by
    rw [List.find?_eq_none]
    intro x hx
    simp [h.2 x hx]
  unfold ChunkType.tryFrom
  rw [hf]

theorem ChunkType.tryFrom_ok {v : List Nat} {ct : ChunkType}
    (h : ChunkType.tryFrom v = .ok ct) :
    ct.bytes = v ∧ ∀ b ∈ v, isAsciiAlphabetic b = true := by
  unfold ChunkType.tryFrom at h
  cases hf : v.find? (fun b => !(isAsciiAlphabetic b)) with
  | some b => rw [hf] at h; exact absurd h (by simp)
  | none =>
    rw [hf] at h
    simp only [Except.ok.injEq] at h
    refine ⟨by rw [← h], ?_⟩
    intro b hb
    have hx := List.find?_eq_none.mp hf b hb
    simpa using hx

theorem tryFrom_frame (ct : ChunkType) (d : List Nat) (x : Nat)
    (hct : ct.WF) (hx : x < 4294967296) :
    Chunk.tryFrom (u32BE (d.length % 4294967296) ++ ct.bytes ++ d ++ u32BE x) =
      if x = crc32 (ct.bytes ++ d) then .ok (Chunk.new ct d)
      else .error .InvalidChecksum := by
  obtain ⟨hctlen, hctalpha⟩ := hct
  have hAlen : (u32BE (d.length % 4294967296)).length = 4 := u32BE_length _
  have e1 : u32BE (d.length % 4294967296) ++ ct.bytes ++ d ++ u32BE x =
      u32BE (d.length % 4294967296) ++ (ct.bytes ++ (d ++ u32BE x)) := by
    simp [List.append_assoc]
  have e2 : u32BE (d.length % 4294967296) ++ ct.bytes ++ d ++ u32BE x =
      (u32BE (d.length % 4294967296) ++ ct.bytes) ++ (d ++ u32BE x) := by
    simp [List.append_assoc]
  have hvlen : (u32BE (d.length % 4294967296) ++ ct.bytes ++ d ++ u32BE x).length =
      12 + d.length := by
    simp [hctlen, u32BE]
    omega
  have htake4 : (u32BE (d.length % 4294967296) ++ ct.bytes ++ d ++ u32BE x).take 4 =
      u32BE (d.length % 4294967296) := by
    rw [e1]; exact List.take_left' hAlen
  have htype : ((u32BE (d.length % 4294967296) ++ ct.bytes ++ d ++ u32BE x).drop 4).take 4 =
      ct.bytes := by
    rw [e1, List.drop_left' hAlen]; exact List.take_left' hctlen
  have hdrop8 : (u32BE (d.length % 4294967296) ++ ct.bytes ++ d ++ u32BE x).drop 8 =
      d ++ u32BE x := by
    rw [e2]; exact List.drop_left' (by simp [hctlen, u32BE])
  have hdata : ((u32BE (d.length % 4294967296) ++ ct.bytes ++ d ++ u32BE x).drop 8).take
      (12 + d.length - 12) = d := by
    rw [hdrop8]
    have h12 : 12 + d.length - 12 = d.length := by omega
    rw [h12]
    exact List.take_left' rfl
  have hcrcfield : (u32BE (d.length % 4294967296) ++ ct.bytes ++ d ++ u32BE x).drop
      (12 + d.length - 4) = u32BE x := by
    have h8 : 12 + d.length - 4 = 8 + d.length := by omega
    rw [h8]
    exact List.drop_left' (by simp [hctlen, u32BE]; omega)
  have hmod : d.length % 4294967296 < 4294967296 := Nat.mod_lt _ (by norm_num)
  unfold Chunk.tryFrom
  rw [hvlen, htake4, hdata, hcrcfield, htype]
  rw [if_neg (by omega)]
  rw [u32FromBE_u32BE _ hmod, wrapSub32_len]
  rw [if_neg (by simp)]
  rw [ChunkType.tryFrom_of_WF ⟨hctlen, hctalpha⟩]
  simp only [u32FromBE_u32BE x hx]
  have hnewcrc : (Chunk.new ct d).crc = crc32 (ct.bytes ++ d) := rfl
  rw [hnewcrc]
  by_cases hc : x = crc32 (ct.bytes ++ d)
  · rw [if_pos hc, if_neg (by omega)]
  · rw [if_neg hc, if_pos hc]

theorem Chunk.new_as_bytes (ct : ChunkType) (d : List Nat) :
    (Chunk.new ct d).as_bytes =
      u32BE (d.length % 4294967296) ++ ct.bytes ++ d ++ u32BE (crc32 (ct.bytes ++ d)) := rfl

theorem crc32_lt_of_chunk {ct : ChunkType} {d : List Nat} (hct : ct.WF)
    (hd : ∀ b ∈ d, b < 256) : crc32 (ct.bytes ++ d) < 4294967296 := by
  apply crc32_lt
  intro b hb
  rcases List.mem_append.mp hb with h | h
  · exact alpha_lt_256 (hct.2 b h)
  · exact hd b h

theorem Chunk.tryFrom_new {ct : ChunkType} {d : List Nat} (hct : ct.WF)
    (hd : ∀ b ∈ d, b < 256) :
    Chunk.tryFrom (Chunk.new ct d).as_bytes = .ok (Chunk.new ct d) := by
  rw [Chunk.new_as_bytes, tryFrom_frame ct d _ hct (crc32_lt_of_chunk hct hd), if_pos rfl]

theorem Chunk.WF_new {ct : ChunkType} {d : List Nat} (hct : ct.WF)
    (hd : ∀ b ∈ d, b < 256) (hlen : d.length < 4294967296) : (Chunk.new ct d).WF := by
  refine ⟨hct, hd, hlen, ?_, rfl⟩
  show d.length % 4294967296 = d.length
  exact Nat.mod_eq_of_lt hlen

theorem Chunk.WF_eq_new {c : Chunk} (h : c.WF) : c = Chunk.new c.chunk_type c.data := by
  obtain ⟨_, _, hlen, hl, hcrc⟩ := h
  have hlength : c.length = c.data.length % 4294967296 := by
    rw [hl, Nat.mod_eq_of_lt hlen]
  cases c with
  | mk l t dt cr =>
    simp only [Chunk.new, Chunk.mk.injEq]
    exact ⟨hlength, trivial, trivial, hcrc⟩

theorem Chunk.tryFrom_as_bytes {c : Chunk} (h : c.WF) :
    Chunk.tryFrom c.as_bytes = .ok c := by
  have he := Chunk.WF_eq_new h
  rw [he]
  exact Chunk.tryFrom_new h.1 h.2.1

theorem Chunk.tryFrom_ok_inv {value : List Nat} {c : Chunk}
    (h : Chunk.tryFrom value = .ok c) :
    12 ≤ value.length ∧
    u32FromBE (value.take 4) = wrapSub32 (value.length % 4294967296) 12 ∧
    ∃ ct, ChunkType.tryFrom ((value.drop 4).take 4) = .ok ct ∧
      c = Chunk.new ct ((value.drop 8).take (value.length - 12)) ∧
      u32FromBE (value.drop (value.length - 4)) = c.crc := by
  unfold Chunk.tryFrom at h
  split at h
  · exact absurd h (by simp)
  · rename_i h12
    split at h
    · exact absurd h (by simp)
    · rename_i hlenf
      push_neg at hlenf
      split at h
      · exact absurd h (by simp)
      · rename_i ct hctf
        split at h
        · exact absurd h (by simp)
        · rename_i hcrc
          push_neg at hcrc
          simp only [Except.ok.injEq] at h
          exact ⟨by omega, hlenf, ct, hctf, h.symm, by rw [h] at hcrc; exact hcrc⟩

theorem Chunk.tryFrom_WF {value : List Nat} {c : Chunk}
    (h : Chunk.tryFrom value = .ok c) (hb : ∀ x ∈ value, x < 256)
    (hlen : value.length < 4294967308) : c.WF := by
  obtain ⟨h12, hlenf, ct, hctf, hc, hcrc⟩ := Chunk.tryFrom_ok_inv h
  obtain ⟨hbytes, halpha⟩ := ChunkType.tryFrom_ok hctf
  have hctWF : ct.WF := by
    refine ⟨?_, ?_⟩
    · rw [hbytes]
      simp only [List.length_take, List.length_drop]
      omega
    · rw [hbytes]
      exact halpha
  have hdlen : ((value.drop 8).take (value.length - 12)).length = value.length - 12 := by
    simp only [List.length_take, List.length_drop]
    omega
  subst hc
  refine Chunk.WF_new hctWF ?_ ?_
  · intro b hbmem
    exact hb b (List.drop_subset _ _ (List.take_subset _ _ hbmem))
  · rw [hdlen]
    omega

theorem slice_assembly (value : List Nat) (h : 12 ≤ value.length) :
    value.take 4 ++ ((value.drop 4).take 4 ++
      ((value.drop 8).take (value.length - 12) ++ value.drop (value.length - 4))) = value := by
  have h1 : (value.drop 4).drop 4 = value.drop 8 := by
    rw [List.drop_drop]
  have h2 : (value.drop 8).drop (value.length - 12) = value.drop (value.length - 4) := by
    rw [List.drop_drop]
    congr 1
    omega
  calc value.take 4 ++ ((value.drop 4).take 4 ++
        ((value.drop 8).take (value.length - 12) ++ value.drop (value.length - 4)))
      = value.take 4 ++ ((value.drop 4).take 4 ++
        ((value.drop 8).take (value.length - 12) ++ (value.drop 8).drop (value.length - 12))) := by
        rw [h2]
    _ = value.take 4 ++ ((value.drop 4).take 4 ++ (value.drop 4).drop 4) := by
        rw [List.take_append_drop, ← h1]
    _ = value.take 4 ++ value.drop 4 := by
        rw [List.take_append_drop]
    _ = value := List.take_append_drop 4 value

theorem Chunk.as_bytes_tryFrom {value : List Nat} {c : Chunk}
    (hb : ∀ x ∈ value, x < 256) (h : Chunk.tryFrom value = .ok c) :
    c.as_bytes = value := by
  obtain ⟨h12, hlenf, ct, hctf, hc, hcrc⟩ := Chunk.tryFrom_ok_inv h
  obtain ⟨hbytes, _⟩ := ChunkType.tryFrom_ok hctf
  have hdlen : ((value.drop 8).take (value.length - 12)).length = value.length - 12 := by
    simp only [List.length_take, List.length_drop]
    omega
  have hcrclen : (value.drop (value.length - 4)).length = 4 := by
    simp only [List.length_drop]
    omega
  have hcrcbytes : ∀ x ∈ value.drop (value.length - 4), x < 256 :=
    fun x hx => hb x (List.drop_subset _ _ hx)
  have htklen : (value.take 4).length = 4 := by
    simp only [List.length_take]
    omega
  have htakebytes : ∀ x ∈ value.take 4, x < 256 :=
    fun x hx => hb x (List.take_subset _ _ hx)
  subst hc
  have hcrc2 : crc32 (ct.bytes ++ (value.drop 8).take (value.length - 12)) =
      u32FromBE (value.drop (value.length - 4)) := hcrc.symm
  rw [Chunk.new_as_bytes, hdlen, ← wrapSub32_of_ge h12, ← hlenf]
  rw [hcrc2, u32BE_u32FromBE_of_len hcrclen hcrcbytes]
  rw [u32BE_u32FromBE_of_len htklen htakebytes, hbytes]
  simp only [List.append_assoc]
  exact slice_assembly value h12

theorem Chunk.as_bytes_length {c : Chunk} (h : c.chunk_type.bytes.length = 4) :
    c.as_bytes.length = 12 + c.data.length := by
  simp [Chunk.as_bytes, u32BE, h]
  omega

theorem parseChunksAux_cons_eq (fuel : Nat) (bytes : List Nat) (hne : bytes ≠ []) :
    parseChunksAux (fuel + 1) bytes =
      match Chunk.tryFrom (bytes.take (12 + u32FromBE (bytes.take 4))) with
      | .error e => .error e
      | .ok c =>
        match parseChunksAux fuel (bytes.drop (12 + u32FromBE (bytes.take 4))) with
        | .error e => .error e
        | .ok cs => .ok (c :: cs) := by
  cases bytes with
  | nil => exact absurd rfl hne
  | cons b bs => rfl

theorem chunksBytes_cons (c : Chunk) (cs : List Chunk) :
    chunksBytes (c :: cs) = c.as_bytes ++ chunksBytes cs := rfl

theorem parseChunksAux_chunksBytes (cs : List Chunk) :
    ∀ fuel, (∀ c ∈ cs, c.WF) → (chunksBytes cs).length ≤ fuel →
      parseChunksAux fuel (chunksBytes cs) = .ok cs := by
  induction cs with
  | nil =>
    intro fuel _ _
    cases fuel <;> rfl
  | cons c cs ih =>
    intro fuel hWF hfuel
    have hcWF : c.WF := hWF c (List.mem_cons_self c cs)
    have hctlen : c.chunk_type.bytes.length = 4 := hcWF.1.1
    have hablen : c.as_bytes.length = 12 + c.data.length := Chunk.as_bytes_length hctlen
    have hclen : c.length = c.data.length := hcWF.2.2.2.1
    have hdlt : c.data.length < 4294967296 := hcWF.2.2.1
    rw [chunksBytes_cons] at hfuel ⊢
    cases fuel with
    | zero =>
      exfalso
      rw [List.length_append, hablen] at hfuel
      omega
    | succ f =>
      have hne : c.as_bytes ++ chunksBytes cs ≠ [] := by
        intro hemp
        have := congrArg List.length hemp
        rw [List.length_append, hablen] at this
        simp at this
      rw [parseChunksAux_cons_eq f _ hne]
      have hshape : c.as_bytes ++ chunksBytes cs =
          u32BE c.length ++ (c.chunk_type.bytes ++ (c.data ++ u32BE c.crc) ++ chunksBytes cs) := by
        simp [Chunk.as_bytes, List.append_assoc]
      have htk4 : (c.as_bytes ++ chunksBytes cs).take 4 = u32BE c.length := by
        rw [hshape]
        exact List.take_left' (u32BE_length _)
      have hu : u32FromBE ((c.as_bytes ++ chunksBytes cs).take 4) = c.length := by
        rw [htk4, u32FromBE_u32BE]
        omega
      have htkchunk : (c.as_bytes ++ chunksBytes cs).take (12 + c.length) = c.as_bytes :=
        List.take_left' (by omega)
      have hdpchunk : (c.as_bytes ++ chunksBytes cs).drop (12 + c.length) = chunksBytes cs :=
        List.drop_left' (by omega)
      rw [hu, htkchunk, hdpchunk]
      rw [Chunk.tryFrom_as_bytes hcWF]
      rw [ih f (fun x hx => hWF x (List.mem_cons_of_mem _ hx))
        (by rw [List.length_append, hablen] at hfuel; omega)]

theorem parseChunks_chunksBytes {cs : List Chunk} (h : ∀ c ∈ cs, c.WF) :
    parseChunks (chunksBytes cs) = .ok cs :=
  parseChunksAux_chunksBytes cs _ h (Nat.le_refl _)

theorem Png.serialize_reparse {p : Png} (h : p.WF) : Png.tryFrom p.as_bytes = .ok p := by
  unfold Png.tryFrom Png.as_bytes
  rw [List.take_left' (show pngSignature.length = 8 from rfl), if_pos rfl,
    List.drop_left' (show pngSignature.length = 8 from rfl), parseChunks_chunksBytes h]

theorem parseChunksAux_WF :
    ∀ fuel (bytes : List Nat) cs, parseChunksAux fuel bytes = .ok cs →
      (∀ x ∈ bytes, x < 256) → ∀ c ∈ cs, c.WF := by
  intro fuel
  induction fuel with
  | zero =>
    intro bytes cs h hb
    cases bytes with
    | nil =>
      simp only [parseChunksAux, Except.ok.injEq] at h
      subst h
      simp
    | cons b bs => simp [parseChunksAux] at h
  | succ f ih =>
    intro bytes cs h hb
    cases bytes with
    | nil =>
      simp only [parseChunksAux, Except.ok.injEq] at h
      subst h
      simp
    | cons b bs =>
      rw [parseChunksAux_cons_eq f _ (by simp)] at h
      cases hc1 : Chunk.tryFrom ((b :: bs).take (12 + u32FromBE ((b :: bs).take 4))) with
      | error e => rw [hc1] at h; simp at h
      | ok c0 =>
        rw [hc1] at h
        cases hc2 : parseChunksAux f ((b :: bs).drop (12 + u32FromBE ((b :: bs).take 4))) with
        | error e => rw [hc2] at h; simp at h
        | ok cs0 =>
          rw [hc2] at h
          simp only [Except.ok.injEq] at h
          subst h
          intro c hcmem
          rcases List.mem_cons.mp hcmem with rfl | hmem
          · apply Chunk.tryFrom_WF hc1
            · intro x hx
              exact hb x (List.take_subset _ _ hx)
            · have hn : u32FromBE ((b :: bs).take 4) < 4294967296 :=
                u32FromBE_lt (List.length_take_le _ _)
                  (fun x hx => hb x (List.take_subset _ _ hx))
              have hle := List.length_take_le (12 + u32FromBE ((b :: bs).take 4)) (b :: bs)
              omega
          · exact ih _ _ hc2 (fun x hx => hb x (List.drop_subset _ _ hx)) c hmem

theorem Png.remove_chunk_sublist {p : Png} {ct : ChunkType} {c0 : Chunk} {p2 : Png}
    (h : p.remove_chunk ct = .ok (c0, p2)) : p2.chunks.Sublist p.chunks := by
  unfold Png.remove_chunk at h
  cases hf : p.chunks.find? (fun c => c.chunk_type == ct) with
  | some c1 =>
    rw [hf] at h
    simp only [Except.ok.injEq, Prod.mk.injEq] at h
    rw [← h.2]
    exact List.eraseP_sublist _
  | none => rw [hf] at h; simp at h

theorem Png.applyOp_WF {p : Png} {op : PngOp} (hp : p.WF) (hop : op.WF) :
    (p.applyOp op).WF := by
  cases op with
  | append ct d =>
    obtain ⟨hct, hd, hlen⟩ := hop
    intro c hc
    simp only [Png.applyOp, Png.append_chunk] at hc
    rcases List.mem_append.mp hc with h | h
    · exact hp c h
    · simp only [List.mem_singleton] at h
      rw [h]
      exact Chunk.WF_new hct hd hlen
  | remove ct =>
    intro c hc
    simp only [Png.applyOp] at hc
    cases hr : p.remove_chunk ct with
    | ok pr =>
      obtain ⟨c0, p2⟩ := pr
      rw [hr] at hc
      exact hp c ((Png.remove_chunk_sublist hr).subset hc)
    | error e =>
      rw [hr] at hc
      exact hp c hc

theorem Png.applyOps_WF {p : Png} {ops : List PngOp} (hp : p.WF)
    (hops : ∀ op ∈ ops, op.WF) : (p.applyOps ops).WF := by
  induction ops generalizing p with
  | nil => exact hp
  | cons op ops ih =>
    exact ih (Png.applyOp_WF hp (hops op (List.mem_cons_self op ops)))
      (fun o ho => hops o (List.mem_cons_of_mem _ ho))

theorem Png.parse_gives_WF {b : List Nat} {p : Png} (h : Png.tryFrom b = .ok p)
    (hb : ∀ x ∈ b, x < 256) : p.WF := by
  unfold Png.tryFrom at h
  split at h
  · unfold parseChunks at h
    cases hpc : parseChunksAux (b.drop 8).length (b.drop 8) with
    | error e => rw [hpc] at h; simp at h
    | ok cs =>
      rw [hpc] at h
      simp only [Except.ok.injEq] at h
      subst h
      intro c hc
      exact parseChunksAux_WF _ _ _ hpc (fun x hx => hb x (List.drop_subset _ _ hx)) c hc
  · exact absurd h (by simp)

theorem nth_bit_iff (num n : Nat) : nth_bit num n = true ↔ num.testBit n = false := by
  unfold nth_bit
  rw [Nat.shiftLeft_eq, Nat.one_mul, Nat.and_two_pow]
  cases h : num.testBit n with
  | false => simp
  | true =>
    have h2 : (2 : Nat) ^ n ≠ 0 := pow_ne_zero n (by norm_num)
    simp [h2]

theorem find?_first_not (p : Nat → Bool) :
    ∀ (v : List Nat) (i : Nat), i < v.length →
      (∀ j, j < i → p (v.getD j 0) = false) → p (v.getD i 0) = true →
      v.find? p = some (v.getD i 0) := by
  intro v
  induction v with
  | nil => intro i hi _ _; simp at hi
  | cons a t ih =>
    intro i hi hbefore hat
    cases i with
    | zero =>
      simp only [List.getD_cons_zero] at hat ⊢
      exact List.find?_cons_of_pos _ hat
    | succ k =>
      have ha : p a = false := by
        have h0 := hbefore 0 (Nat.succ_pos k)
        simpa using h0
      simp only [List.getD_cons_succ] at hat ⊢
      rw [List.find?_cons_of_neg _ (by simp [ha])]
      exact ih k (by simpa using hi)
        (fun j hj => by
          have hj1 := hbefore (j + 1) (by omega)
          simpa using hj1) hat

set_option maxRecDepth 100000 in
/-- Grounding of the CRC-32 model: the ISO-HDLC check value for the
standard test input "123456789" is 0xCBF43926. -/
theorem crc32_check_value :
    crc32 [49, 50, 51, 52, 53, 54, 55, 56, 57] = 3421780262 := by decide

set_option maxRecDepth 100000 in
/-- Grounding of the CRC-32 model against the repository's own test
vector: the CRC of "RuSt" followed by the test payload is 2882656334
(src/chunk.rs, test_chunk_crc). -/
theorem crc32_repo_test_vector :
    crc32 ([82, 117, 83, 116] ++ secretMessageBytes) = 2882656334 := by decide

/-! ## Claims -/

/-- C1: Chunk serialization and parsing are mutually inverse: for every
chunk constructed by `Chunk::new` (from a constructible `ChunkType` and
byte-valued data), `Chunk::try_from` on its `as_bytes` succeeds and yields
an equal chunk (hence equal length, type, payload and crc); and every byte
slice accepted by `Chunk::try_from` serializes back to itself via
`as_bytes`. -/
theorem chunk_roundtrip :
    (∀ (ct : ChunkType) (d : List Nat), ct.WF → (∀ b ∈ d, b < 256) →
      Chunk.tryFrom (Chunk.new ct d).as_bytes = .ok (Chunk.new ct d)) ∧
    (∀ (value : List Nat) (c : Chunk), (∀ x ∈ value, x < 256) →
      Chunk.tryFrom value = .ok c → c.as_bytes = value) :=
  ⟨fun _ _ hct hd => Chunk.tryFrom_new hct hd,
   fun _ _ hb h => Chunk.as_bytes_tryFrom hb h⟩

set_option maxRecDepth 100000 in
/-- Witness for C1 at the type "RuSt" with payload [1, 2, 3]. -/
theorem chunk_roundtrip_witness :
    Chunk.tryFrom (Chunk.new ⟨[82, 117, 83, 116]⟩ [1, 2, 3]).as_bytes =
      .ok (Chunk.new ⟨[82, 117, 83, 116]⟩ [1, 2, 3]) ∧
    (Chunk.new ⟨[82, 117, 83, 116]⟩ [1, 2, 3]).as_bytes =
      (Chunk.new ⟨[82, 117, 83, 116]⟩ [1, 2, 3]).as_bytes :=
  ⟨chunk_roundtrip.1 ⟨[82, 117, 83, 116]⟩ [1, 2, 3] (by decide) (by decide),
   chunk_roundtrip.2 (Chunk.new ⟨[82, 117, 83, 116]⟩ [1, 2, 3]).as_bytes
     (Chunk.new ⟨[82, 117, 83, 116]⟩ [1, 2, 3]) (by decide)
     (chunk_roundtrip.1 ⟨[82, 117, 83, 116]⟩ [1, 2, 3] (by decide) (by decide))⟩

/-- C2: `Chunk::new` (a total function) stores `length = d.len() as u32`
(the data length truncated to 32 bits), stores the given type and data
unchanged, and stores `crc` = CRC-32 (ISO-HDLC) of the four type bytes
followed by the data; the crc is a pure function of the type bytes and the
data. -/
theorem chunk_new_invariant :
    (∀ (ct : ChunkType) (d : List Nat),
      (Chunk.new ct d).length = d.length % 4294967296 ∧
      (Chunk.new ct d).crc = crc32 (ct.bytes ++ d) ∧
      (Chunk.new ct d).chunk_type = ct ∧ (Chunk.new ct d).data = d) ∧
    (∀ (ct1 ct2 : ChunkType) (d1 d2 : List Nat), ct1.bytes = ct2.bytes → d1 = d2 →
      (Chunk.new ct1 d1).crc = (Chunk.new ct2 d2).crc) := by
  refine ⟨fun ct d => ⟨rfl, rfl, rfl, rfl⟩, ?_⟩
  intro ct1 ct2 d1 d2 hb hd
  subst hd
  show crc32 (ct1.bytes ++ d1) = crc32 (ct2.bytes ++ d1)
  rw [hb]

set_option maxRecDepth 100000 in
/-- Witness for C2 at the type "RuSt" with payload [9]. -/
theorem chunk_new_invariant_witness :
    (Chunk.new ⟨[82, 117, 83, 116]⟩ [9]).length = 1 ∧
    (Chunk.new ⟨[82, 117, 83, 116]⟩ [9]).crc = crc32 ([82, 117, 83, 116] ++ [9]) ∧
    (Chunk.new ⟨[82, 117, 83, 116]⟩ [9]).crc = (Chunk.new ⟨[82, 117, 83, 116]⟩ [9]).crc := by
  refine ⟨?_, (chunk_new_invariant.1 ⟨[82, 117, 83, 116]⟩ [9]).2.1,
    chunk_new_invariant.2 ⟨[82, 117, 83, 116]⟩ ⟨[82, 117, 83, 116]⟩ [9] [9] rfl rfl⟩
  rw [(chunk_new_invariant.1 ⟨[82, 117, 83, 116]⟩ [9]).1]
  decide

/-- C3: for every container obtained from a successful parse of a byte
slice, and after any sequence of append/remove mutations, serializing with
`as_bytes` and reparsing succeeds and yields the same chunk sequence. -/
theorem png_roundtrip (b : List Nat) (p : Png) (ops : List PngOp)
    (hb : ∀ x ∈ b, x < 256) (hp : Png.tryFrom b = .ok p)
    (hops : ∀ op ∈ ops, op.WF) :
    Png.tryFrom (p.applyOps ops).as_bytes = .ok (p.applyOps ops) :=
  Png.serialize_reparse (Png.applyOps_WF (Png.parse_gives_WF hp hb) hops)

set_option maxRecDepth 1000000 in
/-- Witness for C3: parse a container holding one "RuSt" chunk, append a
"TEXt" chunk and remove the "RuSt" chunk, then round-trip. -/
theorem png_roundtrip_witness :
    Png.tryFrom ((Png.mk [Chunk.new ⟨[82, 117, 83, 116]⟩ [7]]).applyOps
      [.append ⟨[84, 69, 88, 116]⟩ [104, 105], .remove ⟨[82, 117, 83, 116]⟩]).as_bytes =
    .ok ((Png.mk [Chunk.new ⟨[82, 117, 83, 116]⟩ [7]]).applyOps
      [.append ⟨[84, 69, 88, 116]⟩ [104, 105], .remove ⟨[82, 117, 83, 116]⟩]) :=
  png_roundtrip (pngSignature ++ (Chunk.new ⟨[82, 117, 83, 116]⟩ [7]).as_bytes)
    (Png.mk [Chunk.new ⟨[82, 117, 83, 116]⟩ [7]])
    [.append ⟨[84, 69, 88, 116]⟩ [104, 105], .remove ⟨[82, 117, 83, 116]⟩]
    (by decide) (by decide) (by decide)

/-- C4: the property-bit accessors test bit 5 (0x20) of bytes 0..3:
critical and public and reserved-bit-valid hold when the bit is clear,
safe-to-copy holds when the bit is set, and `is_valid` equals
`is_reserved_bit_valid`; with the spec's concrete instances for "RuSt",
"ruSt", "Rust" and "RuST". -/
theorem chunk_type_property_bits :
    (∀ ct : ChunkType,
      (ct.is_critical = true ↔ (ct.bytes.getD 0 0).testBit 5 = false) ∧
      (ct.is_public = true ↔ (ct.bytes.getD 1 0).testBit 5 = false) ∧
      (ct.is_reserved_bit_valid = true ↔ (ct.bytes.getD 2 0).testBit 5 = false) ∧
      (ct.is_safe_to_copy = true ↔ (ct.bytes.getD 3 0).testBit 5 = true) ∧
      ct.is_valid = ct.is_reserved_bit_valid) ∧
    ((ChunkType.mk [82, 117, 83, 116]).is_critical = true ∧
     (ChunkType.mk [82, 117, 83, 116]).is_public = false ∧
     (ChunkType.mk [82, 117, 83, 116]).is_reserved_bit_valid = true ∧
     (ChunkType.mk [82, 117, 83, 116]).is_safe_to_copy = true) ∧
    (ChunkType.mk [114, 117, 83, 116]).is_critical = false ∧
    (ChunkType.mk [82, 117, 115, 116]).is_reserved_bit_valid = false ∧
    (ChunkType.mk [82, 117, 83, 84]).is_safe_to_copy = false := by
  refine ⟨?_, by decide, by decide, by decide, by decide⟩
  intro ct
  refine ⟨nth_bit_iff _ 5, nth_bit_iff _ 5, nth_bit_iff _ 5, ?_, rfl⟩
  have h := nth_bit_iff (ct.bytes.getD 3 0) 5
  show (!(nth_bit (ct.bytes.getD 3 0) 5)) = true ↔ _
  cases hn : nth_bit (ct.bytes.getD 3 0) 5 <;>
    cases ht : (ct.bytes.getD 3 0).testBit 5 <;> simp_all

/-- C5: `Chunk::try_from` fails with `Incomplete` exactly when the input
is shorter than 12 bytes (so this check precedes all others: no input of
length at least 12 ever produces `Incomplete`); the empty slice fails with
`Incomplete`. -/
theorem chunk_parse_incomplete (value : List Nat) :
    (value.length < 12 → Chunk.tryFrom value = .error .Incomplete) ∧
    (12 ≤ value.length → Chunk.tryFrom value ≠ .error .Incomplete) := by
  constructor
  · intro h
    unfold Chunk.tryFrom
    rw [if_pos h]
  · intro h
    unfold Chunk.tryFrom
    rw [if_neg (by omega)]
    split
    · simp
    · split
      · simp
      · split
        · simp
        · simp

/-- Witness for C5: the empty slice and a 13-byte slice. -/
theorem chunk_parse_incomplete_witness :
    Chunk.tryFrom [] = .error .Incomplete ∧
    Chunk.tryFrom [0, 0, 0, 1, 82, 117, 83, 116, 9, 0, 0, 0, 0] ≠
      .error .Incomplete :=
  ⟨(chunk_parse_incomplete []).1 (by decide),
   (chunk_parse_incomplete [0, 0, 0, 1, 82, 117, 83, 116, 9, 0, 0, 0, 0]).2 (by decide)⟩

/-- C6 counterexample: the claim quantifies over every input of length at
least 12, but `value.len() as u32` truncates; at the all-zero input of
length 2^32 + 12 the declared length 0 differs from the input length minus
12 (which is 2^32), yet the truncated check passes and parsing proceeds to
the chunk type, failing with `InvalidChunkType`, not `InvalidLengthField`. -/
theorem chunk_length_field_counterexample :
    12 ≤ (List.replicate 4294967308 (0 : Nat)).length ∧
    u32FromBE ((List.replicate 4294967308 (0 : Nat)).take 4) ≠
      (List.replicate 4294967308 (0 : Nat)).length - 12 ∧
    Chunk.tryFrom (List.replicate 4294967308 (0 : Nat)) =
      .error (.InvalidChunkType (.InvalidByte 0)) := by
  have hlen : (List.replicate 4294967308 (0 : Nat)).length = 4294967308 :=
    List.length_replicate _ _
  have h1 : (List.replicate 4294967308 (0 : Nat)).take 4 = List.replicate 4 (0 : Nat) := by
    rw [List.take_replicate]
    congr 1
  have h2 : u32FromBE (List.replicate 4 (0 : Nat)) = 0 := rfl
  refine ⟨by rw [hlen]; omega, by rw [h1, h2, hlen]; omega, ?_⟩
  unfold Chunk.tryFrom
  rw [hlen, if_neg (by omega), h1, h2]
  have h3 : wrapSub32 (4294967308 % 4294967296) 12 = 0 := by decide
  rw [h3, if_neg (by simp)]
  have h4 : ((List.replicate 4294967308 (0 : Nat)).drop 4).take 4 =
      List.replicate 4 (0 : Nat) := by
    rw [List.drop_replicate, List.take_replicate]
    congr 1
  rw [h4]
  have h5 : ChunkType.tryFrom (List.replicate 4 (0 : Nat)) = .error (.InvalidByte 0) := rfl
  rw [h5]

/-- C6 (amended): for every input byte slice of length at least 12 and
less than 2^32, if the first four bytes read as a big-endian u32 differ
from the input length minus 12, `Chunk::try_from` fails with
`InvalidLengthField` whose expected field is the input length minus 12 and
whose found field is the declared value; no assumption is made on the type
bytes, so the check precedes chunk-type parsing. -/
theorem chunk_invalid_length_field (value : List Nat)
    (h12 : 12 ≤ value.length) (hlt : value.length < 4294967296)
    (hne : u32FromBE (value.take 4) ≠ value.length - 12) :
    Chunk.tryFrom value =
      .error (.InvalidLengthField (value.length - 12) (u32FromBE (value.take 4))) := by
  unfold Chunk.tryFrom
  rw [if_neg (by omega)]
  have hw : wrapSub32 (value.length % 4294967296) 12 = value.length - 12 := by
    unfold wrapSub32
    omega
  rw [hw, if_pos hne]

/-- Witness for C6 (amended) at a 13-byte input with declared length 9 and
non-alphabetic type bytes. -/
theorem chunk_invalid_length_field_witness :
    Chunk.tryFrom [0, 0, 0, 9, 1, 2, 3, 4, 9, 0, 0, 0, 0] =
      .error (.InvalidLengthField 1 9) :=
  chunk_invalid_length_field [0, 0, 0, 9, 1, 2, 3, 4, 9, 0, 0, 0, 0]
    (by decide) (by decide) (by decide)

/-- C7: for every input passing the minimum-size, length-field and
chunk-type checks, `Chunk::try_from` fails with `InvalidChecksum` exactly
when the trailing four bytes read as a big-endian u32 differ from the CRC
recomputed via `Chunk::new` over the type and payload, and otherwise
returns the constructed chunk; in particular a well-formed chunk's bytes
with the trailing CRC field decremented by 1 (wrapping) fail with
`InvalidChecksum`. -/
theorem chunk_invalid_checksum :
    (∀ (value : List Nat) (ct : ChunkType),
      12 ≤ value.length →
      u32FromBE (value.take 4) = wrapSub32 (value.length % 4294967296) 12 →
      ChunkType.tryFrom ((value.drop 4).take 4) = .ok ct →
      ((Chunk.tryFrom value = .error .InvalidChecksum ↔
        u32FromBE (value.drop (value.length - 4)) ≠
          (Chunk.new ct ((value.drop 8).take (value.length - 12))).crc) ∧
       (u32FromBE (value.drop (value.length - 4)) =
          (Chunk.new ct ((value.drop 8).take (value.length - 12))).crc →
        Chunk.tryFrom value = .ok (Chunk.new ct ((value.drop 8).take (value.length - 12)))))) ∧
    (∀ (ct : ChunkType) (d : List Nat), ct.WF → (∀ b ∈ d, b < 256) →
      Chunk.tryFrom (u32BE (d.length % 4294967296) ++ ct.bytes ++ d ++
        u32BE ((crc32 (ct.bytes ++ d) + 4294967295) % 4294967296)) =
        .error .InvalidChecksum) := by
  constructor
  · intro value ct h12 hlen hct
    have hred : Chunk.tryFrom value =
        if u32FromBE (value.drop (value.length - 4)) ≠
            (Chunk.new ct ((value.drop 8).take (value.length - 12))).crc then
          .error .InvalidChecksum
        else .ok (Chunk.new ct ((value.drop 8).take (value.length - 12))) := by
      unfold Chunk.tryFrom
      rw [if_neg (by omega), hlen, if_neg (by simp), hct]
    by_cases hc : u32FromBE (value.drop (value.length - 4)) =
        (Chunk.new ct ((value.drop 8).take (value.length - 12))).crc
    · rw [hred, if_neg (by simp [hc])]
      exact ⟨⟨fun h => absurd h (by simp), fun h => absurd hc h⟩, fun _ => rfl⟩
    · rw [hred, if_pos hc]
      exact ⟨⟨fun _ => hc, fun _ => rfl⟩, fun h => absurd h hc⟩
  · intro ct d hct hd
    have hcrchi : crc32 (ct.bytes ++ d) < 4294967296 := crc32_lt_of_chunk hct hd
    rw [tryFrom_frame ct d _ hct (Nat.mod_lt _ (by norm_num))]
    rw [if_neg (by omega)]

set_option maxRecDepth 100000 in
/-- Witness for C7: a 13-byte chunk buffer with a wrong CRC field, and the
"RuSt"/[9] chunk with its CRC field decremented by 1. -/
theorem chunk_invalid_checksum_witness :
    Chunk.tryFrom [0, 0, 0, 1, 82, 117, 83, 116, 9, 0, 0, 0, 0] =
      .error .InvalidChecksum ∧
    Chunk.tryFrom (u32BE (([9] : List Nat).length % 4294967296) ++ [82, 117, 83, 116] ++
      [9] ++ u32BE ((crc32 ([82, 117, 83, 116] ++ [9]) + 4294967295) % 4294967296)) =
      .error .InvalidChecksum :=
  ⟨(chunk_invalid_checksum.1 [0, 0, 0, 1, 82, 117, 83, 116, 9, 0, 0, 0, 0]
      ⟨[82, 117, 83, 116]⟩ (by decide) (by decide) (by decide)).1.mpr (by decide),
   chunk_invalid_checksum.2 ⟨[82, 117, 83, 116]⟩ [9] (by decide) (by decide)⟩

/-- C8: `ChunkType` parsing from bytes fails with `InvalidByte(b)` at the
first non-alphabetic byte scanning left to right and succeeds when all
bytes are alphabetic; parsing from a string fails with
`InvalidLength(len)` whenever the byte length is not 4, with no alphabet
condition (the length check comes first), and otherwise delegates to the
byte parser; with the concrete instances "RuSt" and "Ru1t". -/
theorem chunk_type_parse :
    (∀ (v : List Nat) (i : Nat), i < v.length →
      (∀ j, j < i → isAsciiAlphabetic (v.getD j 0) = true) →
      isAsciiAlphabetic (v.getD i 0) = false →
      ChunkType.tryFrom v = .error (.InvalidByte (v.getD i 0))) ∧
    (∀ v : List Nat, (∀ b ∈ v, isAsciiAlphabetic b = true) →
      ChunkType.tryFrom v = .ok ⟨v⟩) ∧
    (∀ s : List Nat, s.length ≠ 4 → ChunkType.fromStr s = .error (.InvalidLength s.length)) ∧
    (∀ s : List Nat, s.length = 4 → ChunkType.fromStr s = ChunkType.tryFrom s) ∧
    ChunkType.tryFrom [82, 117, 83, 116] = .ok ⟨[82, 117, 83, 116]⟩ ∧
    ChunkType.tryFrom [82, 117, 49, 116] = .error (.InvalidByte 49) := by
  refine ⟨?_, ?_, ?_, ?_, by decide, by decide⟩
  · intro v i hi hbefore hat
    unfold ChunkType.tryFrom
    rw [find?_first_not _ v i hi
      (fun j hj => by simp only [hbefore j hj, Bool.not_true])
      (by simp only [hat, Bool.not_false])]
  · intro v hall
    unfold ChunkType.tryFrom
    have hf : v.find? (fun b => !(isAsciiAlphabetic b)) = none := by
      rw [List.find?_eq_none]
      intro x hx
      simp [hall x hx]
    rw [hf]
  · intro s hs
    unfold ChunkType.fromStr
    rw [if_neg hs]
  · intro s hs
    unfold ChunkType.fromStr
    rw [if_pos hs]

/-- Witness for C8: "Ru1t" fails at index 2 with byte 49, "abc" parses
as three alphabetic bytes, a 3-byte string fails with InvalidLength 3,
and a 4-byte string delegates to the byte parser. -/
theorem chunk_type_parse_witness :
    ChunkType.tryFrom [82, 117, 49, 116] = .error (.InvalidByte 49) ∧
    ChunkType.tryFrom [97, 98, 99] = .ok ⟨[97, 98, 99]⟩ ∧
    ChunkType.fromStr [82, 117, 83] = .error (.InvalidLength 3) ∧
    ChunkType.fromStr [82, 117, 83, 116] = ChunkType.tryFrom [82, 117, 83, 116] :=
  ⟨chunk_type_parse.1 [82, 117, 49, 116] 2 (by decide)
      (fun j hj => by
        match j, hj with
        | 0, _ => decide
        | 1, _ => decide) (by decide),
   chunk_type_parse.2.1 [97, 98, 99] (by decide),
   chunk_type_parse.2.2.1 [82, 117, 83] (by decide),
   chunk_type_parse.2.2.2.1 [82, 117, 83, 116] (by decide)⟩

/-- C9 counterexample: the test payload "This is where your secret message
will be!" is 42 bytes, not 44, and the reported error carries
expected = 42, not 44. -/
theorem chunk_length_mismatch_counterexample :
    secretMessageBytes.length = 42 ∧
    Chunk.tryFrom (u32BE 9999 ++ [82, 117, 83, 116] ++ secretMessageBytes ++
      u32BE 2882656334) = .error (.InvalidLengthField 42 9999) ∧
    Chunk.tryFrom (u32BE 9999 ++ [82, 117, 83, 116] ++ secretMessageBytes ++
      u32BE 2882656334) ≠ .error (.InvalidLengthField 44 9999) := by
  refine ⟨by decide, by decide, ?_⟩
  intro h
  rw [show Chunk.tryFrom (u32BE 9999 ++ [82, 117, 83, 116] ++ secretMessageBytes ++
      u32BE 2882656334) = .error (.InvalidLengthField 42 9999) by decide] at h
  exact absurd h (by decide)

/-- C9 (amended): with type "RuSt", the 42-byte test payload and a
declared length field of 9999, `Chunk::try_from` fails with
`InvalidLengthField{expected: 42, found: 9999}`. -/
theorem chunk_length_mismatch :
    Chunk.tryFrom (u32BE 9999 ++ [82, 117, 83, 116] ++ secretMessageBytes ++
      u32BE 2882656334) = .error (.InvalidLengthField 42 9999) := by decide

/-- C10: `Chunk::try_from` is total: every input yields a chunk or a
structured error; and once the input has at least 12 bytes, every slice
the parser takes — bytes 0..4, 4..8, 8..(len-4) and (len-4)..len — has
exactly the expected extent and the four slices reassemble the input. -/
theorem chunk_parse_total (value : List Nat) :
    ((∃ c, Chunk.tryFrom value = .ok c) ∨ (∃ e, Chunk.tryFrom value = .error e)) ∧
    (12 ≤ value.length →
      (value.take 4).length = 4 ∧
      ((value.drop 4).take 4).length = 4 ∧
      ((value.drop 8).take (value.length - 12)).length = value.length - 12 ∧
      (value.drop (value.length - 4)).length = 4 ∧
      value.take 4 ++ ((value.drop 4).take 4 ++
        ((value.drop 8).take (value.length - 12) ++ value.drop (value.length - 4))) = value) := by
  constructor
  · cases h : Chunk.tryFrom value with
    | ok c => exact Or.inl ⟨c, rfl⟩
    | error e => exact Or.inr ⟨e, rfl⟩
  · intro h12
    refine ⟨?_, ?_, ?_, ?_, slice_assembly value h12⟩
    · simp only [List.length_take]
      omega
    · simp only [List.length_take, List.length_drop]
      omega
    · simp only [List.length_take, List.length_drop]
      omega
    · simp only [List.length_drop]
      omega

/-- Witness for C10 at the 12-byte all-zero input. -/
theorem chunk_parse_total_witness :
    ((∃ c, Chunk.tryFrom (List.replicate 12 (0 : Nat)) = .ok c) ∨
     (∃ e, Chunk.tryFrom (List.replicate 12 (0 : Nat)) = .error e)) ∧
    ((List.replicate 12 (0 : Nat)).take 4).length = 4 ∧
    (((List.replicate 12 (0 : Nat)).drop 4).take 4).length = 4 ∧
    (((List.replicate 12 (0 : Nat)).drop 8).take ((List.replicate 12 (0 : Nat)).length - 12)).length =
      (List.replicate 12 (0 : Nat)).length - 12 ∧
    ((List.replicate 12 (0 : Nat)).drop ((List.replicate 12 (0 : Nat)).length - 4)).length = 4 ∧
    (List.replicate 12 (0 : Nat)).take 4 ++ (((List.replicate 12 (0 : Nat)).drop 4).take 4 ++
      (((List.replicate 12 (0 : Nat)).drop 8).take ((List.replicate 12 (0 : Nat)).length - 12) ++
        (List.replicate 12 (0 : Nat)).drop ((List.replicate 12 (0 : Nat)).length - 4))) =
      List.replicate 12 (0 : Nat) :=
  ⟨(chunk_parse_total (List.replicate 12 (0 : Nat))).1,
   (chunk_parse_total (List.replicate 12 (0 : Nat))).2 (by decide)⟩

end Pngme
